import Mathlib

/-!
Verification of the text-alignment core of the Ripple server
(`server/text_segmentation.py`): `segment_texts`, `extract_linguistic_units`,
`calculate_unit_similarity`, `align_linguistic_units` and
`basic_segmentation`, shallowly embedded in Lean.

Modelling conventions:

* Python strings are Lean `String`s; Python slicing `s[a:b]` is `pySlice`;
  `str.split()` is `pySplitWS`; `sep.join` is `pyJoin`; `str.split(sep)` is
  `pySplitOn`; `str.strip()` is `pyStrip`; `str.lower()` is `pyLower` — all
  defined by structural recursion on character lists, so that concrete
  claims can be settled by kernel evaluation.
* Python floats are modelled as rationals: the similarity arithmetic of the
  source uses only exact decimal constants and ratios of small naturals.
* The spaCy collaborator is a parameter (`Oracles`): `parse` models
  `nlp(text)` (`none` models a raised exception); `vecSim` models building
  the two snippet docs, the `has_vector` test and `Doc.similarity` in
  `calculate_unit_similarity` (`none` models missing vectors or any
  exception in that step).
* A spaCy `Doc` is modelled by the data the source reads from it: its text,
  its token count (`len(doc)`) and its sentences.  A sentence carries its
  character offsets (`Span.start_char`/`Span.end_char`, which the spaCy API
  defines relative to the document), its text and its candidate chunk list:
  `sent.noun_chunks` together with the single-token verb anchors the source
  collects, before the `chunks.sort` step.  `Doc.WF` records the structural
  guarantees spaCy provides for these fields.
* `try/except` handlers whose protected region can fail in the source only
  through the spaCy collaborator are modelled by `Option`; handlers that
  guard code which is pure and total in this embedding (the per-sentence
  handler and the document-level fallbacks of `extract_linguistic_units`,
  the per-pair handler and the outer handler of `align_linguistic_units`,
  the outer handler of `calculate_unit_similarity`) are unreachable here and
  therefore omitted.
* The `while` loop of `align_linguistic_units` is embedded with a fuel
  argument (`alignCore`): the initial fuel `ou.length + su.length + 1`
  strictly dominates the iteration count, since every iteration increases
  `i + j` by at least one; all theorems below quantify over the fuel or use
  the full entry fuel, never relying on exhaustion.
-/

namespace Ripple

unseal Rat.mul Rat.inv Rat.add Rat.sub

/-- Python `s[a:b]` for `0 ≤ a ≤ b`, clamping at the ends like Python. -/
def pySlice (s : String) (a b : Nat) : String := ⟨(s.data.drop a).take (b - a)⟩

/-- Python `s[:n]`. -/
def pyTake (s : String) (n : Nat) : String := ⟨s.data.take n⟩

/-- Python `s[n:]`. -/
def pyDrop (s : String) (n : Nat) : String := ⟨s.data.drop n⟩

/-- Tokenizer of Python `s.split()`: maximal runs of non-whitespace
characters, in order; `acc` holds the current run, reversed.  (Defined on
character lists, by structural recursion, so that concrete claims can be
settled by kernel evaluation.) -/
def wsTokens : List Char → List Char → List String
  | [], acc => if acc = [] then [] else [⟨acc.reverse⟩]
  | c :: cs, acc =>
    if c.isWhitespace then
      if acc = [] then wsTokens cs []
      else ⟨acc.reverse⟩ :: wsTokens cs []
    else wsTokens cs (c :: acc)

/-- Python `s.split()`: split on whitespace runs, no empty pieces. -/
def pySplitWS (s : String) : List String := wsTokens s.data []

/-- Python `s.strip()`: remove leading and trailing whitespace. -/
def pyStrip (s : String) : String :=
  ⟨((s.data.dropWhile fun c => c.isWhitespace).reverse.dropWhile
      fun c => c.isWhitespace).reverse⟩

/-- Python `s.lower()` (ASCII case folding, as used by the source on its
word tokens). -/
def pyLower (s : String) : String := ⟨s.data.map Char.toLower⟩

/-- Worker for Python `s.split(sep)` with non-empty `sep`: left-to-right,
non-overlapping; `cur` holds the current piece, reversed.  The fuel is at
least `l.length + 1`, and every step consumes at least one character, so
the fuel-exhaustion branch is unreachable. -/
def splitOnGo (sep : List Char) : Nat → List Char → List Char → List (List Char)
  | 0, cur, l => [cur.reverse ++ l]
  | fuel + 1, cur, l =>
    if sep.isPrefixOf l then
      cur.reverse :: splitOnGo sep fuel [] (l.drop sep.length)
    else
      match l with
      | [] => [cur.reverse]
      | c :: cs => splitOnGo sep fuel (c :: cur) cs

/-- Python `s.split(sep)` for non-empty `sep`. -/
def pySplitOn (s sep : String) : List String :=
  (splitOnGo sep.data (s.data.length + 1) [] s.data).map fun l => ⟨l⟩

/-- Python `sep.join(l)`. -/
def pyJoin (sep : String) : List String → String
  | [] => ""
  | a :: l => l.foldl (fun acc x => acc ++ sep ++ x) a

/-- Concatenation of a list of strings, used to state the reconstruction
and identity claims. -/
def concatTexts : List String → String
  | [] => ""
  | a :: l => a ++ concatTexts l

/-- One candidate chunk of a sentence: a spaCy `Span` (a noun chunk or a
single-token verb anchor).  `start` is the token index, the key of the
source's `chunks.sort(key=lambda x: x.start)`; `start_char` is the character
offset of the span, which the spaCy API defines relative to the document. -/
structure Chunk where
  start : Nat
  start_char : Nat
  text : String
deriving DecidableEq, Repr

/-- One sentence of a parsed document (a spaCy sentence `Span`): its
document-relative character offsets, its text, and the candidate chunks the
source collects for it (`sent.noun_chunks` plus verb anchors), unsorted. -/
structure Sent where
  start_char : Nat
  end_char : Nat
  text : String
  chunks : List Chunk
deriving DecidableEq, Repr

/-- A parsed document (spaCy `Doc`), carrying the data that
`extract_linguistic_units` reads from it; `nTokens` models `len(doc)`. -/
structure Doc where
  text : String
  nTokens : Nat
  sents : List Sent
deriving DecidableEq, Repr

/-- Structural guarantees spaCy provides for one sentence span: it lies
inside the document, its text is the document slice at its offsets, it is
nonempty (a sentence holds at least one token), and its candidate chunks are
nonempty in-sentence spans whose text is the document slice at their
(document-relative) offsets. -/
def Sent.WF (t : String) (s : Sent) : Prop :=
  s.start_char ≤ s.end_char ∧ s.end_char ≤ t.length ∧
  s.text = pySlice t s.start_char s.end_char ∧ s.text ≠ "" ∧
  ∀ c ∈ s.chunks,
    s.start_char ≤ c.start_char ∧ c.start_char + c.text.length ≤ s.end_char ∧
    c.text = pySlice t c.start_char (c.start_char + c.text.length) ∧ c.text ≠ ""

/-- Structural guarantees spaCy provides for a parsed document: a document
with no tokens has no sentences, and every sentence is well-formed. -/
def Doc.WF (d : Doc) : Prop :=
  (d.nTokens = 0 → d.sents = []) ∧ ∀ s ∈ d.sents, Sent.WF d.text s

instance (t : String) (s : Sent) : Decidable (Sent.WF t s) := by
  unfold Sent.WF; infer_instance

instance (d : Doc) : Decidable d.WF := by
  unfold Doc.WF; infer_instance

/-- The spaCy collaborator, abstracted: `parse` models `nlp(text)` (`none`
models a raised exception); `vecSim` models the vector sub-step of
`calculate_unit_similarity` (`none` models unavailable vectors or any
exception there).  Both are functions, so repeated calls on the same
argument agree, as for the process-wide `nlp` object of the source. -/
structure Oracles where
  parse : String → Option Doc
  vecSim : String → String → Option ℚ

/-- One linguistic unit as built by `extract_linguistic_units`; `stop`
models the dictionary key `"end"` of the source. -/
structure LUnit where
  text : String
  start : Nat
  stop : Nat
deriving DecidableEq, Repr

/-- Default unit for `List.getD`; the source only ever indexes in range. -/
def defU : LUnit := ⟨"", 0, 0⟩

/-- One output segment of the aligner / fallback segmenter. -/
structure Segment where
  original : String
  suggested : String
  similarity : ℚ
deriving DecidableEq, Repr

/-- `basic_segmentation` (text_segmentation.py:43-97), word-chunk branch
(lines 66-78): group the whitespace-split words of each side into chunks of
3, pairing chunks positionally; a side past its last word contributes `""`. -/
def wordChunkSegments (original suggested : String) : List Segment :=
  let orig_words := pySplitWS original
  let sugg_words := pySplitWS suggested
  ((List.range ((max orig_words.length sugg_words.length + 2) / 3)).map
      fun n => 3 * n).map fun i =>
    let orig_chunk :=
      if i < orig_words.length then pyJoin " " ((orig_words.drop i).take 3) else ""
    let sugg_chunk :=
      if i < sugg_words.length then pyJoin " " ((sugg_words.drop i).take 3) else ""
    ⟨orig_chunk, sugg_chunk, if orig_chunk = sugg_chunk then 1 else 0⟩

/-- `basic_segmentation` (text_segmentation.py:43-97).  The index list
`(List.range ...).map (3 * ·)` in the word-chunk branch models Python's
`range(0, max(...), chunk_size)` with `chunk_size = 3`. -/
def basic_segmentation (original suggested : String) : List Segment :=
  let orig_parts := pySplitOn original ". "
  let sugg_parts := pySplitOn suggested ". "
  if orig_parts.length = 1 ∧ sugg_parts.length = 1 then
    if (pySplitWS original).length ≤ 3 ∧ (pySplitWS suggested).length ≤ 3 then
      [⟨original, suggested, if original = suggested then 1 else 0⟩]
    else
      wordChunkSegments original suggested
  else
    (List.range (max orig_parts.length sugg_parts.length)).filterMap fun i =>
      let orig_text := if i < orig_parts.length then orig_parts.getD i "" ++ ". " else ""
      let sugg_text := if i < sugg_parts.length then sugg_parts.getD i "" ++ ". " else ""
      if orig_text = "" ∧ sugg_text = "" then none
      else some ⟨orig_text, sugg_text, if orig_text = sugg_text then 1 else 0⟩

/-- Stable insertion used by `sortChunks`. -/
def insertChunk (c : Chunk) : List Chunk → List Chunk
  | [] => [c]
  | d :: ds => if d.start < c.start then d :: insertChunk c ds else c :: d :: ds

/-- `chunks.sort(key=lambda x: x.start)` (text_segmentation.py:224): a
stable sort of the candidate chunks by token index. -/
def sortChunks : List Chunk → List Chunk
  | [] => []
  | c :: cs => insertChunk c (sortChunks cs)

/-- The chain condition under which the chunk walk of
`extract_linguistic_units` loses no text (used to state the amended
reconstruction claim): successive chunks start at or after the previous
endpoint, and every non-empty gap between them (and after the last chunk)
contains a non-whitespace character, so the walk emits it. -/
def chainOK (t : String) : Nat → List Chunk → Bool
  | pos, [] => pos == t.length || pyStrip (pySlice t pos t.length) != ""
  | pos, c :: cs =>
    decide (pos ≤ c.start_char) &&
    (c.start_char == pos || pyStrip (pySlice t pos c.start_char) != "") &&
    chainOK t (c.start_char + c.text.length) cs

/-- The chunk walk of `extract_linguistic_units`
(text_segmentation.py:235-268): carry `last_end`, emit the non-whitespace
text strictly between `last_end` and the next chunk, then the chunk, and
finally the non-whitespace text reaching to the end of the sentence. -/
def chunkWalk (d : Doc) (sent : Sent) : Nat → List Chunk → List LUnit
  | last_end, [] =>
    if last_end < sent.end_char then
      let remaining_text := pySlice d.text last_end sent.end_char
      if pyStrip remaining_text ≠ "" then
        [⟨remaining_text, last_end, sent.end_char⟩]
      else []
    else []
  | last_end, c :: cs =>
    let chunk_text := c.text
    let chunk_start := sent.start_char + c.start_char
    let chunk_end := chunk_start + chunk_text.length
    (if last_end < chunk_start then
      let between_text := pySlice d.text last_end chunk_start
      if pyStrip between_text ≠ "" then
        [⟨between_text, last_end, chunk_start⟩]
      else []
    else []) ++ ⟨chunk_text, chunk_start, chunk_end⟩ :: chunkWalk d sent chunk_end cs

/-- The per-sentence body of `extract_linguistic_units`
(text_segmentation.py:198-268).  The source computes
`chunk_start = sent.start_char + chunk.start_char` although spaCy's
`chunk.start_char` is already document-relative; the model reproduces that
arithmetic faithfully. -/
def processSent (d : Doc) (sent : Sent) : List LUnit :=
  let sent_text := sent.text
  if (pySplitWS sent_text).length < 5 then
    [⟨sent_text, sent.start_char, sent.end_char⟩]
  else
    let chunks := sortChunks sent.chunks
    if chunks = [] then
      [⟨sent_text, sent.start_char, sent.end_char⟩]
    else
      chunkWalk d sent sent.start_char chunks

/-- `extract_linguistic_units` (text_segmentation.py:188-297).  The
document-level `except` fallbacks (lines 279-297) can fire in the source
only through spaCy calls, which are pure data here, so they are omitted. -/
def extract_linguistic_units (d : Doc) : List LUnit :=
  if d.nTokens = 0 then []
  else List.flatten (d.sents.map fun s => processSent d s)

/-- `calculate_unit_similarity` (text_segmentation.py:299-354).  The two
`Doc` arguments are accepted but never used, exactly as in the source. -/
def calculate_unit_similarity (O : Oracles) (text1 text2 : String)
    (doc1 doc2 : Doc) : ℚ :=
  if text1 = "" ∨ text2 = "" then 0
  else if text1 = text2 then 1
  else
    let text1_norm := pyLower (pyStrip text1)
    let text2_norm := pyLower (pyStrip text2)
    if text1_norm = text2_norm then 1
    else
      let words1 := (pySplitWS text1_norm).toFinset
      let words2 := (pySplitWS text2_norm).toFinset
      if words1 = ∅ ∨ words2 = ∅ then 0
      else
        let jaccard : ℚ :=
          if words1 ∪ words2 ≠ ∅ then
            ((words1 ∩ words2).card : ℚ) / ((words1 ∪ words2).card : ℚ)
          else 0
        if 3 ≤ words1.card ∧ 3 ≤ words2.card then
          match O.vecSim (pyTake text1 100) (pyTake text2 100) with
          | some cosine_sim =>
            if 0 ≤ cosine_sim ∧ cosine_sim ≤ 1 then
              jaccard * (7/10) + cosine_sim * (3/10)
            else jaccard
          | none => jaccard
        else jaccard

/-- The Jaccard part of `calculate_unit_similarity`, as a standalone
definition for use in theorem statements. -/
def jaccardSim (text1 text2 : String) : ℚ :=
  let words1 := (pySplitWS (pyLower (pyStrip text1))).toFinset
  let words2 := (pySplitWS (pyLower (pyStrip text2))).toFinset
  if words1 ∪ words2 ≠ ∅ then
    ((words1 ∩ words2).card : ℚ) / ((words1 ∪ words2).card : ℚ)
  else 0

/-- One lookahead scan of `align_linguistic_units`
(text_segmentation.py:405-430): fold over the candidate offsets `k`,
recording `toIdx k` whenever the pair's similarity exceeds both `0.7` and
the running best.  The source's `break` at the first `k` with an
out-of-range index is modelled by filtering the candidate list, which agrees
with `break` because the indices grow with `k`. -/
def lookScan (score : Nat → ℚ) (toIdx : Nat → Nat) :
    List Nat → Option Nat × ℚ → Option Nat × ℚ
  | [], acc => acc
  | k :: ks, acc =>
    if (7 : ℚ)/10 < score k ∧ acc.2 < score k then
      lookScan score toIdx ks (some (toIdx k), score k)
    else
      lookScan score toIdx ks acc

/-- The "look ahead in original text" loop (text_segmentation.py:405-416). -/
def lookaheadOriginal (O : Oracles) (od sd : Doc) (ou su : List LUnit)
    (i j ml : Nat) : Option Nat × ℚ :=
  lookScan
    (fun k => calculate_unit_similarity O
      ((ou.getD (i + k) defU).text) ((su.getD j defU).text) od sd)
    (fun k => i + k)
    ((List.range' 1 ml).filter fun k => i + k < ou.length)
    (none, 0)

/-- The "look ahead in suggested text" loop (text_segmentation.py:419-430);
`best` is the running `best_similarity` left by the original-side scan — the
two loops of the source share that variable. -/
def lookaheadSuggested (O : Oracles) (od sd : Doc) (ou su : List LUnit)
    (i j ml : Nat) (best : ℚ) : Option Nat × ℚ :=
  lookScan
    (fun k => calculate_unit_similarity O
      ((ou.getD i defU).text) ((su.getD (j + k) defU).text) od sd)
    (fun k => j + k)
    ((List.range' 1 ml).filter fun k => j + k < su.length)
    (none, best)

/-- `combined_original` (text_segmentation.py:434-436): the concatenated
texts of the original units with indices in `[i, m)`. -/
def combineOrig (ou : List LUnit) (i m : Nat) : String :=
  concatTexts (((ou.drop i).take (m - i)).map fun u => u.text)

/-- `combined_suggested` (text_segmentation.py:447-449). -/
def combineSugg (su : List LUnit) (j m : Nat) : String :=
  concatTexts (((su.drop j).take (m - j)).map fun u => u.text)

/-- The low-similarity branch of one iteration of the alignment loop
(text_segmentation.py:397-467): run both lookahead scans, then take the
deletion branch if the original-side scan matched, else the insertion branch
if the suggested-side scan matched, else force the current pair.  Returns
the emitted segment and the new `(i, j)`. -/
def elseStep (O : Oracles) (od sd : Doc) (ou su : List LUnit)
    (i j : Nat) (similarity : ℚ) : Segment × Nat × Nat :=
  let ml := min 3 (min (ou.length - i) (su.length - j))
  let bo := lookaheadOriginal O od sd ou su i j ml
  let bs := lookaheadSuggested O od sd ou su i j ml bo.2
  match bo.1 with
  | some m => (⟨combineOrig ou i m, "", 0⟩, m, j)
  | none =>
    match bs.1 with
    | some m => (⟨"", combineSugg su j m, 0⟩, i, m)
    | none =>
      (⟨(ou.getD i defU).text, (su.getD j defU).text, similarity⟩, i + 1, j + 1)

/-- The `while` loop of `align_linguistic_units` together with the two
drain loops (text_segmentation.py:376-496), with `i`, `j` explicit and a
fuel bound on the number of iterations. -/
def alignCore (O : Oracles) (od sd : Doc) (ou su : List LUnit) :
    Nat → Nat → Nat → List Segment
  | 0, _, _ => []
  | fuel + 1, i, j =>
    if i < ou.length then
      if j < su.length then
        let similarity := calculate_unit_similarity O
          ((ou.getD i defU).text) ((su.getD j defU).text) od sd
        if (7 : ℚ)/10 < similarity then
          ⟨(ou.getD i defU).text, (su.getD j defU).text, similarity⟩ ::
            alignCore O od sd ou su fuel (i + 1) (j + 1)
        else
          let st := elseStep O od sd ou su i j similarity
          st.1 :: alignCore O od sd ou su fuel st.2.1 st.2.2
      else
        (ou.drop i).map fun u => ⟨u.text, "", 0⟩
    else
      (su.drop j).map fun u => ⟨"", u.text, 0⟩

/-- Python `len(s.split())`. -/
def wordCount (s : String) : Nat := (pySplitWS s).length

/-- The "very short segment" test of the merge post-process
(text_segmentation.py:505-507). -/
def tooShort (seg : Segment) : Bool :=
  (decide (wordCount seg.original ≤ 1) && decide (wordCount seg.suggested ≤ 1)) ||
  (decide (seg.original = "") && decide (wordCount seg.suggested ≤ 2)) ||
  (decide (seg.suggested = "") && decide (wordCount seg.original ≤ 2))

/-- The loop of the merge post-process (text_segmentation.py:500-517):
`current` is merged into the next segment, with similarity reset to `0`,
for as long as it stays very short; the final `current` is appended. -/
def mergeShortLoop (current : Segment) : List Segment → List Segment
  | [] => [current]
  | s :: rest =>
    if tooShort current then
      mergeShortLoop ⟨current.original ++ s.original,
                      current.suggested ++ s.suggested, 0⟩ rest
    else
      current :: mergeShortLoop s rest

/-- The merge post-process of `align_linguistic_units`
(text_segmentation.py:498-518), applied only when more than one segment was
produced. -/
def mergeShortSegments (segments : List Segment) : List Segment :=
  if 1 < segments.length then
    match segments with
    | [] => []
    | c :: rest => mergeShortLoop c rest
  else segments

/-- `align_linguistic_units` (text_segmentation.py:356-536).  The outer
`except` (lines 521-536) and the per-pair `except` (lines 468-477) can fire
in the source only through exceptions of pure code, which is total here, so
they are omitted. -/
def align_linguistic_units (O : Oracles) (original_units suggested_units : List LUnit)
    (original_doc suggested_doc : Doc) : List Segment :=
  if original_units = [] ∧ suggested_units = [] then []
  else if original_units = [] then
    suggested_units.map fun u => ⟨"", u.text, 0⟩
  else if suggested_units = [] then
    original_units.map fun u => ⟨u.text, "", 0⟩
  else
    mergeShortSegments
      (alignCore O original_doc suggested_doc original_units suggested_units
        (original_units.length + suggested_units.length + 1) 0 0)

/-- `segment_texts` (text_segmentation.py:99-186): the public operation.
Any failure of the spaCy pipeline (`parse` returning `none`) falls back to
`basic_segmentation` on the full, untruncated inputs, as the source's outer
handler does. -/
def segment_texts (O : Oracles) (original suggested : String) : List Segment :=
  if original = "" ∧ suggested = "" then []
  else if original = "" then [⟨"", suggested, 0⟩]
  else if suggested = "" then [⟨original, "", 0⟩]
  else
    match O.parse (pyTake original 5000) with
    | none => basic_segmentation original suggested
    | some original_doc =>
      match O.parse (pyTake suggested 5000) with
      | none => basic_segmentation original suggested
      | some suggested_doc =>
        let original_units := extract_linguistic_units original_doc
        let suggested_units := extract_linguistic_units suggested_doc
        let segments := align_linguistic_units O original_units suggested_units
          original_doc suggested_doc
        if 5000 < original.length ∨ 5000 < suggested.length then
          segments ++
            [⟨if 5000 < original.length then pyDrop original 5000 else "",
              if 5000 < suggested.length then pyDrop suggested 5000 else "", 0⟩]
        else segments

/-- A trivial collaborator whose parse always fails: `segment_texts` then
exercises exactly its fallback path. -/
def OTriv : Oracles := ⟨fun _ => none, fun _ _ => none⟩

/-- The empty parsed document. -/
def dEmpty : Doc := ⟨"", 0, []⟩

/-- A two-sentence document, parsed as spaCy parses it: the second sentence
starts at character 7 and owns the noun chunk "Cc dd", whose `start_char`
is 7 (document-relative, per the spaCy API). -/
def exDocC2 : Doc :=
  ⟨"Aa bb. Cc dd ee ff gg.", 10,
   [⟨0, 6, "Aa bb.", []⟩,
    ⟨7, 22, "Cc dd ee ff gg.", [⟨3, 7, "Cc dd"⟩]⟩]⟩

/-- A one-sentence document of five words whose two chunks are separated by
a single space: the text between them is whitespace-only. -/
def exDocC3 : Doc :=
  ⟨"Aa bb cc dd ee", 5,
   [⟨0, 14, "Aa bb cc dd ee", [⟨0, 0, "Aa"⟩, ⟨1, 3, "bb cc dd ee"⟩]⟩]⟩

/-- The single sentence of `exDocC3w`. -/
def sentC3w : Sent :=
  ⟨0, 29, "The big cat saw the small dog",
   [⟨0, 0, "The big cat"⟩, ⟨4, 16, "the small dog"⟩]⟩

/-- A one-sentence document whose chunk gaps all contain non-whitespace. -/
def exDocC3w : Doc := ⟨"The big cat saw the small dog", 7, [sentC3w]⟩

/-- The input of the identity counterexample. -/
def sC4 : String := "Cats. Dogs."

/-- `sC4` parsed as spaCy parses it: two one-word sentences; the separating
space at character 5 belongs to neither sentence span. -/
def docC4 : Doc := ⟨"Cats. Dogs.", 4, [⟨0, 5, "Cats.", []⟩, ⟨6, 11, "Dogs.", []⟩]⟩

/-- A collaborator that parses `sC4` as `docC4` and fails elsewhere. -/
def exOC4 : Oracles :=
  ⟨fun t => if t = sC4 then some docC4 else none, fun _ _ => none⟩

/-- A collaborator whose vector step always yields the in-range score 1/2. -/
def exOC5 : Oracles := ⟨fun _ => none, fun _ _ => some (1/2)⟩

/-- A collaborator that parses every text as the empty document. -/
def exOC8 : Oracles := ⟨fun _ => some dEmpty, fun _ _ => none⟩

/-- A 5001-character input, exceeding the 5000-character processing cap. -/
def bigA : String := ⟨List.replicate 5001 'a'⟩

/-- Original-side units for the lookahead witness. -/
def ouC10 : List LUnit := [⟨"xx", 0, 0⟩, ⟨"yy zz", 0, 0⟩]

/-- Suggested-side units for the lookahead witness. -/
def suC10 : List LUnit := [⟨"yy zz", 0, 0⟩, ⟨"ww", 0, 0⟩]


/-- Claim C1: for every collaborator behaviour, `segment_texts` is a total
function into segment lists (all exception sites are modelled and caught),
and on the distinguished empty-side inputs it returns exactly the segments
the claim names; in particular `segment_texts "" "New text"` is the single
segment `{original := "", suggested := "New text", similarity := 0}`. -/
theorem C1_segment_texts_totality (O : Oracles) :
    segment_texts O "" "New text" = [⟨"", "New text", 0⟩] ∧
    segment_texts O "" "" = [] ∧
    segment_texts O "" "x" = [⟨"", "x", 0⟩] ∧
    segment_texts O "x" "" = [⟨"x", "", 0⟩] :=
  ⟨rfl, rfl, rfl, rfl⟩

/-- Claim C2: refuted on the code.  `extract_linguistic_units` computes
`chunk_start = sent.start_char + chunk.start_char` although spaCy's
`chunk.start_char` is already document-relative, so on `exDocC2` — a
well-formed two-sentence document whose second sentence has a noun chunk —
it emits a unit whose offsets do not locate its text: the unit `"Cc dd"`
gets offsets `[14, 19)` but `doc.text[14:19] = "e ff "`. -/
theorem C2_unit_offset_invariant_fails :
    exDocC2.WF ∧
    ∃ u ∈ extract_linguistic_units exDocC2,
      ¬(u.start ≤ u.stop ∧ u.stop ≤ exDocC2.text.length ∧
        u.text = pySlice exDocC2.text u.start u.stop) := by
  decide

/-- Claim C3, counterexample: on the well-formed one-sentence document
`exDocC3` the text strictly between the two chunks is a single space, which
`extract_linguistic_units` drops (`if between_text.strip()`), so the
concatenated unit texts do not reproduce the document. -/
theorem C3_counterexample :
    exDocC3.WF ∧
    concatTexts ((extract_linguistic_units exDocC3).map fun u => u.text) ≠
      exDocC3.text := by
  decide

/-- Claim C4, counterexample: for the two-sentence input
`s = "Cats. Dogs."`, parsed by the collaborator exactly as spaCy parses it
(`docC4` is well-formed), `segment_texts s s` returns one merged segment
whose concatenated original text `"Cats.Dogs."` differs from `s` (the
inter-sentence space is lost) and whose similarity is `0`, not `1` (the
short-segment merge reset it). -/
theorem C4_counterexample :
    docC4.WF ∧ sC4 ≠ "" ∧
    segment_texts exOC4 sC4 sC4 = [⟨"Cats.Dogs.", "Cats.Dogs.", 0⟩] ∧
    concatTexts ((segment_texts exOC4 sC4 sC4).map fun g => g.original) ≠ sC4 ∧
    ∃ g ∈ segment_texts exOC4 sC4 sC4, g.similarity ≠ 1 := by
  decide

/-- Claim C5, counterexample: `"x y x"` and `"p q r"` each have three
whitespace tokens, and the collaborator's vector step yields the in-range
score 1/2, yet `calculate_unit_similarity` returns the Jaccard score alone
(here 0) rather than the blend `0.7 * jaccard + 0.3 * 1/2`: the source
gates the vector step on the *deduplicated* word sets (`set(...)`), and
`"x y x"` has only two distinct words. -/
theorem C5_counterexample :
    (pySplitWS "x y x").length = 3 ∧ (pySplitWS "p q r").length = 3 ∧
    exOC5.vecSim (pyTake "x y x" 100) (pyTake "p q r" 100) = some (1/2) ∧
    calculate_unit_similarity exOC5 "x y x" "p q r" dEmpty dEmpty ≠
      jaccardSim "x y x" "p q r" * (7/10) + (1/2) * (3/10) := by
  decide

/-- Claim C6: in the aligner's post-process, a very short head segment —
both sides at most one word, or one side empty and the other at most two
words — is merged by concatenating its `original` and `suggested` onto the
next segment, and the merged segment's similarity is reset to `0`
unconditionally: the similarities of both merged pieces are universally
quantified here, so the reset happens even when they were 1. -/
theorem C6_merge_short_resets_similarity (g n : Segment) (rest : List Segment)
    (h : tooShort g = true) :
    mergeShortSegments (g :: n :: rest) =
      mergeShortLoop ⟨g.original ++ n.original, g.suggested ++ n.suggested, 0⟩ rest := by
  unfold mergeShortSegments
  rw [if_pos (by simp)]
  show (if tooShort g = true then
      mergeShortLoop ⟨g.original ++ n.original, g.suggested ++ n.suggested, 0⟩ rest
    else g :: mergeShortLoop n rest) = _
  rw [if_pos h]

/-- Witness for C6: two identical, maximally similar one-word segments are
merged and their similarity is reset from 1 to 0. -/
theorem C6_witness :
    tooShort ⟨"Hi", "Hi", 1⟩ = true ∧
    mergeShortSegments [⟨"Hi", "Hi", 1⟩, ⟨"there friend", "there friend", 1⟩] =
      [⟨"Hithere friend", "Hithere friend", 0⟩] :=
  ⟨by decide, by
    rw [C6_merge_short_resets_similarity _ _ _ (by decide)]
    decide⟩

/-- Claim C7, counterexample: on `("word", "A. B. C")` the original side has
fewer than two `". "`-sentences (and the very-short single-segment case does
not apply), yet `basic_segmentation` takes the sentence-pairing path, not
the 3-word-chunk path: the code requires *both* sides, not either side, to
have a single part. -/
theorem C7_counterexample :
    (pySplitOn "word" ". ").length = 1 ∧
    ¬((pySplitOn "word" ". ").length = 1 ∧ (pySplitOn "A. B. C" ". ").length = 1 ∧
      (pySplitWS "word").length ≤ 3 ∧ (pySplitWS "A. B. C").length ≤ 3) ∧
    basic_segmentation "word" "A. B. C" =
      [⟨"word. ", "A. ", 0⟩, ⟨"", "B. ", 0⟩, ⟨"", "C. ", 0⟩] ∧
    basic_segmentation "word" "A. B. C" ≠ wordChunkSegments "word" "A. B. C" := by
  decide


/-- Claim C7, amended: the 3-word-chunk fallback is taken when *both* sides
(not either side) split on `". "` into exactly one part and the very-short
single-segment case does not apply; it then pairs 3-word chunks
positionally, the exhausted side contributing `""`. -/
theorem C7_amended_word_chunking (o s : String)
    (ho : (pySplitOn o ". ").length = 1) (hs : (pySplitOn s ". ").length = 1)
    (hw : ¬((pySplitWS o).length ≤ 3 ∧ (pySplitWS s).length ≤ 3)) :
    basic_segmentation o s = wordChunkSegments o s := by
  simp only [basic_segmentation]
  rw [if_pos ⟨ho, hs⟩, if_neg hw]

/-- Witness for C7: a four-word original and a two-word suggested side are
chunked into 3-word groups; the second chunk pair has an empty suggested
side because that side is exhausted. -/
theorem C7_witness :
    (pySplitOn "a b c d" ". ").length = 1 ∧ (pySplitOn "e f" ". ").length = 1 ∧
    ¬((pySplitWS "a b c d").length ≤ 3 ∧ (pySplitWS "e f").length ≤ 3) ∧
    basic_segmentation "a b c d" "e f" = wordChunkSegments "a b c d" "e f" ∧
    wordChunkSegments "a b c d" "e f" = [⟨"a b c", "e f", 0⟩, ⟨"d", "", 0⟩] :=
  ⟨by decide, by decide, by decide,
   C7_amended_word_chunking "a b c d" "e f" (by decide) (by decide) (by decide),
   by decide⟩

/-- Helper: dropping from a replicated list. -/
theorem drop_replicate_eq {α : Type} (a : α) :
    ∀ n m : Nat, (List.replicate m a).drop n = List.replicate (m - n) a := by
  intro n
  induction n with
  | zero => intro m; simp
  | succ n ih =>
    intro m
    cases m with
    | zero => simp
    | succ m => simpa [List.replicate_succ, Nat.succ_sub_succ] using ih m

/-- Claim C8: when spaCy parsing succeeds, the linguistic pipeline runs on
the parses of the first 5000 characters of each side only, and whenever
either side exceeds 5000 characters the result is the aligned segments plus
one final segment holding the unprocessed remainders (empty for a side
within the cap) with similarity 0. -/
theorem C8_truncation_remainder (O : Oracles) (original suggested : String)
    (d1 d2 : Doc) (ho : original ≠ "") (hs : suggested ≠ "")
    (h1 : O.parse (pyTake original 5000) = some d1)
    (h2 : O.parse (pyTake suggested 5000) = some d2)
    (hlen : 5000 < original.length ∨ 5000 < suggested.length) :
    segment_texts O original suggested =
      align_linguistic_units O (extract_linguistic_units d1)
        (extract_linguistic_units d2) d1 d2 ++
      [⟨if 5000 < original.length then pyDrop original 5000 else "",
        if 5000 < suggested.length then pyDrop suggested 5000 else "", 0⟩] := by
  simp only [segment_texts, h1, h2]
  rw [if_neg fun h => ho h.1, if_neg ho, if_neg hs, if_pos hlen]

/-- Helper: the length of a string built from an explicit character list. -/
theorem length_mk (l : List Char) : (String.mk l).length = l.length := rfl

/-- Witness for C8: a 5001-character input on both sides; the pipeline sees
the empty parse, and the single returned segment is the remainder pair
`("a", "a")` with similarity 0. -/
theorem C8_witness :
    bigA ≠ "" ∧ exOC8.parse (pyTake bigA 5000) = some dEmpty ∧
    5000 < bigA.length ∧ segment_texts exOC8 bigA bigA = [⟨"a", "a", 0⟩] := by
  have hlen : bigA.length = 5001 := by
    show (String.mk (List.replicate 5001 'a')).length = 5001
    rw [length_mk, List.length_replicate]
  have hne : bigA ≠ "" := by
    intro h
    rw [h] at hlen
    exact absurd hlen (by decide)
  refine ⟨hne, rfl, by omega, ?_⟩
  rw [C8_truncation_remainder exOC8 bigA bigA dEmpty dEmpty hne hne rfl rfl
    (Or.inl (by omega))]
  have hdrop : pyDrop bigA 5000 = "a" := by
    show String.mk ((List.replicate 5001 'a').drop 5000) = "a"
    rw [drop_replicate_eq, show (5001 - 5000 : Nat) = 1 from rfl]
    decide
  rw [if_pos (show 5000 < bigA.length by omega), hdrop]
  decide

/-- Claim C5, amended: for unit texts that are nonempty, differ after
trimming and case folding, and whose *deduplicated* normalized word sets
each have at least 3 elements, the scorer consults the vector oracle on the
first 100 characters of each side and returns the blend
`jaccard * 0.7 + score * 0.3` when the score exists and lies in `[0, 1]`,
and the Jaccard score alone otherwise (missing vectors, failure, or an
out-of-range score). -/
theorem C5_amended_vector_blend (O : Oracles) (text1 text2 : String)
    (d1 d2 : Doc) (h1 : text1 ≠ "") (h2 : text2 ≠ "")
    (hne : pyLower (pyStrip text1) ≠ pyLower (pyStrip text2))
    (hc1 : 3 ≤ (pySplitWS (pyLower (pyStrip text1))).toFinset.card)
    (hc2 : 3 ≤ (pySplitWS (pyLower (pyStrip text2))).toFinset.card) :
    calculate_unit_similarity O text1 text2 d1 d2 =
      match O.vecSim (pyTake text1 100) (pyTake text2 100) with
      | some v =>
        if 0 ≤ v ∧ v ≤ 1 then jaccardSim text1 text2 * (7/10) + v * (3/10)
        else jaccardSim text1 text2
      | none => jaccardSim text1 text2 := by
  have hne12 : text1 ≠ text2 := fun h => hne (by rw [h])
  have hw : ¬((pySplitWS (pyLower (pyStrip text1))).toFinset = ∅ ∨
      (pySplitWS (pyLower (pyStrip text2))).toFinset = ∅) := by
    rintro (h | h)
    · rw [h] at hc1; exact absurd hc1 (by decide)
    · rw [h] at hc2; exact absurd hc2 (by decide)
  simp only [calculate_unit_similarity, jaccardSim]
  rw [if_neg fun h => h.elim h1 h2, if_neg hne12, if_neg hne, if_neg hw,
    if_pos ⟨hc1, hc2⟩]

/-- Witness for C5: two three-word texts with disjoint words and a vector
oracle yielding 1/2; the result is the blend `0 * 0.7 + 1/2 * 0.3 = 3/20`. -/
theorem C5_witness :
    "aa bb cc" ≠ "" ∧
    pyLower (pyStrip "aa bb cc") ≠ pyLower (pyStrip "dd ee ff gg") ∧
    3 ≤ (pySplitWS (pyLower (pyStrip "aa bb cc"))).toFinset.card ∧
    3 ≤ (pySplitWS (pyLower (pyStrip "dd ee ff gg"))).toFinset.card ∧
    calculate_unit_similarity exOC5 "aa bb cc" "dd ee ff gg" dEmpty dEmpty = 3/20 := by
  refine ⟨by decide, by decide, by decide, by decide, ?_⟩
  rw [C5_amended_vector_blend exOC5 "aa bb cc" "dd ee ff gg" dEmpty dEmpty
    (by decide) (by decide) (by decide) (by decide) (by decide)]
  decide

/-- Helper: the empty slice. -/
theorem pySlice_same (t : String) (a : Nat) : pySlice t a a = "" := by
  apply String.ext
  show (t.data.drop a).take (a - a) = ("" : String).data
  simp

/-- Helper: the full slice of a string is the string. -/
theorem pySlice_self (t : String) : pySlice t 0 t.length = t := by
  apply String.ext
  show (t.data.drop 0).take (t.data.length - 0) = t.data
  simp

/-- Helper: adjacent slices concatenate. -/
theorem pySlice_append (t : String) {a b c : Nat} (hab : a ≤ b) (hbc : b ≤ c) :
    pySlice t a b ++ pySlice t b c = pySlice t a c := by
  apply String.ext
  rw [String.data_append]
  show (t.data.drop a).take (b - a) ++ (t.data.drop b).take (c - b) =
    (t.data.drop a).take (c - a)
  have h1 : c - a = (b - a) + (c - b) := by omega
  rw [h1, List.take_add, List.drop_drop]
  have h2 : a + (b - a) = b := by omega
  rw [h2]

/-- Helper: a string with non-whitespace content is nonempty. -/
theorem ne_empty_of_strip_ne {s : String} (h : pyStrip s ≠ "") : s ≠ "" := by
  intro he
  rw [he] at h
  exact h (by decide)

/-- Helper: `concatTexts` over an append. -/
theorem concatTexts_append (l1 l2 : List String) :
    concatTexts (l1 ++ l2) = concatTexts l1 ++ concatTexts l2 := by
  induction l1 with
  | nil => simp [concatTexts]
  | cons a l ih => simp [concatTexts, ih, String.append_assoc]

/-- Helper: membership in `insertChunk`. -/
theorem mem_insertChunk {x c : Chunk} {l : List Chunk} :
    x ∈ insertChunk c l ↔ x = c ∨ x ∈ l := by
  induction l with
  | nil => simp [insertChunk]
  | cons d ds ih =>
    simp only [insertChunk]
    split
    · simp only [List.mem_cons, ih]
      try tauto
    · simp only [List.mem_cons]
      try tauto

/-- Helper: `sortChunks` permutes the chunk candidates. -/
theorem mem_sortChunks {x : Chunk} {l : List Chunk} :
    x ∈ sortChunks l ↔ x ∈ l := by
  induction l with
  | nil => simp [sortChunks]
  | cons c cs ih => simp [sortChunks, mem_insertChunk, ih]

/-- Helper: the chunk walk reconstructs the document tail when the chain
condition holds (document = one sentence starting at 0). -/
theorem chunkWalk_concat (d : Doc) (s : Sent) (h0 : s.start_char = 0)
    (hend : s.end_char = d.text.length) :
    ∀ (cs : List Chunk) (pos : Nat), pos ≤ d.text.length →
      chainOK d.text pos cs = true →
      (∀ c ∈ cs,
        c.text = pySlice d.text c.start_char (c.start_char + c.text.length) ∧
        c.start_char + c.text.length ≤ d.text.length) →
      concatTexts ((chunkWalk d s pos cs).map fun u => u.text) =
        pySlice d.text pos d.text.length := by
  intro cs
  induction cs with
  | nil =>
    intro pos hpos hok _
    simp only [chainOK, Bool.or_eq_true, beq_iff_eq, bne_iff_ne, ne_eq] at hok
    simp only [chunkWalk, hend]
    by_cases hlt : pos < d.text.length
    · rw [if_pos hlt]
      have hstrip : ¬pyStrip (pySlice d.text pos d.text.length) = "" := by
        rcases hok with h | h
        · omega
        · exact h
      rw [if_pos hstrip]
      simp [concatTexts]
    · rw [if_neg hlt]
      have : pos = d.text.length := by omega
      rw [this, pySlice_same]
      simp [concatTexts]
  | cons c cs ih =>
    intro pos hpos hok hc
    simp only [chainOK, Bool.and_eq_true, Bool.or_eq_true, beq_iff_eq,
      bne_iff_ne, ne_eq, decide_eq_true_eq] at hok
    obtain ⟨⟨hle, hgap⟩, hrest⟩ := hok
    obtain ⟨hctext, hcend⟩ := hc c (List.mem_cons_self c cs)
    have hcs : ∀ x ∈ cs, x.text = pySlice d.text x.start_char
        (x.start_char + x.text.length) ∧
        x.start_char + x.text.length ≤ d.text.length :=
      fun x hx => hc x (List.mem_cons_of_mem c hx)
    simp only [chunkWalk, h0, Nat.zero_add]
    have htail := ih (c.start_char + c.text.length)
      (by omega) hrest hcs
    by_cases hlt : pos < c.start_char
    · rw [if_pos hlt]
      have hstrip : pyStrip (pySlice d.text pos c.start_char) ≠ "" := by
        rcases hgap with h | h
        · omega
        · exact h
      rw [if_pos hstrip]
      simp only [List.singleton_append, List.map_cons, concatTexts]
      rw [htail,
        ← pySlice_append d.text (show pos ≤ c.start_char by omega)
          (show c.start_char ≤ d.text.length by omega),
        ← pySlice_append d.text
          (show c.start_char ≤ c.start_char + c.text.length by omega) hcend,
        ← hctext]
    · rw [if_neg hlt]
      have hpe : pos = c.start_char := by omega
      simp only [List.nil_append, List.map_cons, concatTexts]
      rw [htail, hpe,
        ← pySlice_append d.text
          (show c.start_char ≤ c.start_char + c.text.length by omega) hcend,
        ← hctext]

/-- Claim C3, amended: the concatenated unit texts reproduce the document
when the document is parsed as a single sentence spanning the whole text
and, in the chunk branch, every gap between consecutive sorted chunk
candidates (and the tail gap) is empty or contains non-whitespace; in
general whitespace-only gaps between chunks are dropped (see the
counterexample), and chunk offsets in sentences after the first are
misplaced (claim C2). -/
theorem C3_amended_reconstruction (d : Doc) (s : Sent) (hwf : d.WF)
    (hs : d.sents = [s]) (h0 : s.start_char = 0)
    (hend : s.end_char = d.text.length)
    (hok : chainOK d.text 0 (sortChunks s.chunks) = true) :
    concatTexts ((extract_linguistic_units d).map fun u => u.text) = d.text := by
  have hsmem : s ∈ d.sents := by rw [hs]; exact List.mem_cons_self s []
  have hnt : d.nTokens ≠ 0 := by
    intro h
    rw [hwf.1 h] at hs
    exact absurd hs (by simp)
  have hswf : Sent.WF d.text s := hwf.2 s hsmem
  have hstext : s.text = d.text := by
    rw [hswf.2.2.1, h0, hend, pySlice_self]
  unfold extract_linguistic_units
  rw [if_neg hnt, hs]
  simp only [List.map_cons, List.map_nil, List.flatten_cons, List.flatten_nil,
    List.append_nil]
  unfold processSent
  by_cases h5 : (pySplitWS s.text).length < 5
  · rw [if_pos h5]
    simp [concatTexts, hstext]
  · rw [if_neg h5]
    by_cases hcs : sortChunks s.chunks = []
    · rw [if_pos hcs]
      simp [concatTexts, hstext]
    · rw [if_neg hcs]
      have := chunkWalk_concat d s h0 hend (sortChunks s.chunks) s.start_char
        (by omega) (by rw [h0]; exact hok)
        (by
          intro c hcmem
          have hcm : c ∈ s.chunks := mem_sortChunks.mp hcmem
          obtain ⟨_, hcend, hctext, _⟩ := hswf.2.2.2.2 c hcm
          exact ⟨hctext, by omega⟩)
      rw [this, h0, pySlice_self]

/-- Witness for C3: a seven-word single-sentence document whose chunk gaps
contain words; the extracted units reproduce the document exactly. -/
theorem C3_witness :
    exDocC3w.WF ∧ exDocC3w.sents = [sentC3w] ∧ sentC3w.start_char = 0 ∧
    sentC3w.end_char = exDocC3w.text.length ∧
    chainOK exDocC3w.text 0 (sortChunks sentC3w.chunks) = true ∧
    concatTexts ((extract_linguistic_units exDocC3w).map fun u => u.text) =
      exDocC3w.text :=
  ⟨by decide, rfl, rfl, by decide, by decide,
   C3_amended_reconstruction exDocC3w sentC3w (by decide) rfl rfl (by decide)
     (by decide)⟩

/-- Helper: the running best of a lookahead scan never decreases. -/
theorem lookScan_best_mono (score : Nat → ℚ) (toIdx : Nat → Nat) :
    ∀ (ks : List Nat) (acc : Option Nat × ℚ),
      acc.2 ≤ (lookScan score toIdx ks acc).2 := by
  intro ks
  induction ks with
  | nil => intro acc; exact le_refl _
  | cons k ks ih =>
    intro acc
    simp only [lookScan]
    split
    · rename_i h
      exact le_trans (le_of_lt h.2) (ih (some (toIdx k), score k))
    · exact ih acc

/-- Helper: any match recorded by a lookahead scan was already in the
accumulator or comes from a candidate whose score exceeds both 7/10 and the
running best at entry. -/
theorem lookScan_some (score : Nat → ℚ) (toIdx : Nat → Nat) :
    ∀ (ks : List Nat) (acc : Option Nat × ℚ) (m : Nat),
      (lookScan score toIdx ks acc).1 = some m →
      acc.1 = some m ∨
        ∃ k ∈ ks, m = toIdx k ∧ (7 : ℚ)/10 < score k ∧ acc.2 < score k := by
  intro ks
  induction ks with
  | nil => intro acc m h; exact Or.inl h
  | cons k ks ih =>
    intro acc m h
    simp only [lookScan] at h
    by_cases hc : (7 : ℚ)/10 < score k ∧ acc.2 < score k
    · rw [if_pos hc] at h
      rcases ih _ m h with h1 | ⟨k2, hk2, he, hs, hlt⟩
      · exact Or.inr ⟨k, List.mem_cons_self k ks,
          (Option.some.inj h1).symm, hc.1, hc.2⟩
      · exact Or.inr ⟨k2, List.mem_cons_of_mem k hk2, he, hs,
          lt_trans hc.2 hlt⟩
    · rw [if_neg hc] at h
      rcases ih _ m h with h1 | ⟨k2, hk2, he, hs, hlt⟩
      · exact Or.inl h1
      · exact Or.inr ⟨k2, List.mem_cons_of_mem k hk2, he, hs, hlt⟩

/-- Helper: the final running best of a lookahead scan dominates the score
of every qualifying candidate. -/
theorem lookScan_dominates (score : Nat → ℚ) (toIdx : Nat → Nat) :
    ∀ (ks : List Nat) (acc : Option Nat × ℚ) (k : Nat), k ∈ ks →
      (7 : ℚ)/10 < score k → score k ≤ (lookScan score toIdx ks acc).2 := by
  intro ks
  induction ks with
  | nil => intro acc k hk; exact absurd hk (List.not_mem_nil k)
  | cons k0 ks ih =>
    intro acc k hk hq
    rcases List.mem_cons.mp hk with he | hm
    · subst he
      simp only [lookScan]
      by_cases hc : (7 : ℚ)/10 < score k ∧ acc.2 < score k
      · rw [if_pos hc]
        have := lookScan_best_mono score toIdx ks (some (toIdx k), score k)
        exact le_trans (le_refl _) this
      · rw [if_neg hc]
        have hle : score k ≤ acc.2 := by
          by_contra hgt
          exact hc ⟨hq, lt_of_not_le hgt⟩
        exact le_trans hle (lookScan_best_mono score toIdx ks acc)
    · simp only [lookScan]
      split
      · exact ih _ k hm hq
      · exact ih _ k hm hq

/-- Helper: a match recorded by the original-side lookahead lies strictly
between `i` and the length of the original unit list. -/
theorem lookaheadOriginal_some_range (O : Oracles) (od sd : Doc)
    (ou su : List LUnit) (i j ml m : Nat)
    (h : (lookaheadOriginal O od sd ou su i j ml).1 = some m) :
    i < m ∧ m < ou.length := by
  rcases lookScan_some _ _ _ _ _ h with h1 | ⟨k, hk, he, _, _⟩
  · exact absurd h1 (by simp)
  · rcases List.mem_filter.mp hk with ⟨hr, hlt⟩
    have h1k := (List.mem_range'_1.mp hr).1
    have hklt : i + k < ou.length := of_decide_eq_true hlt
    subst he
    omega

/-- Helper: a match recorded by the suggested-side lookahead lies strictly
between `j` and the length of the suggested unit list. -/
theorem lookaheadSuggested_some_range (O : Oracles) (od sd : Doc)
    (ou su : List LUnit) (i j ml m : Nat) (best : ℚ)
    (h : (lookaheadSuggested O od sd ou su i j ml best).1 = some m) :
    j < m ∧ m < su.length := by
  rcases lookScan_some _ _ _ _ _ h with h1 | ⟨k, hk, he, _, _⟩
  · exact absurd h1 (by simp)
  · rcases List.mem_filter.mp hk with ⟨hr, hlt⟩
    have h1k := (List.mem_range'_1.mp hr).1
    have hklt : j + k < su.length := of_decide_eq_true hlt
    subst he
    omega

/-- Claim C10: the two lookahead scans share one running best similarity:
(1) a suggested-side unit is recorded only if its similarity to the current
original unit exceeds 7/10 and strictly exceeds the best left by the
original-side scan; (2) that best dominates every qualifying original-side
candidate (score above 7/10); and (3) whenever the original-side scan found
any match, the low-similarity step takes the deletion branch — advancing
`i` to the recorded index and leaving `j` unchanged — regardless of what
the suggested-side scan found. -/
theorem C10_lookahead_shared_best (O : Oracles) (od sd : Doc)
    (ou su : List LUnit) (i j ml : Nat) (sim : ℚ) :
    (∀ m, (lookaheadSuggested O od sd ou su i j ml
        (lookaheadOriginal O od sd ou su i j ml).2).1 = some m →
      (7 : ℚ)/10 < calculate_unit_similarity O ((ou.getD i defU).text)
          ((su.getD m defU).text) od sd ∧
      (lookaheadOriginal O od sd ou su i j ml).2 <
        calculate_unit_similarity O ((ou.getD i defU).text)
          ((su.getD m defU).text) od sd) ∧
    (∀ k ∈ (List.range' 1 ml).filter (fun k => i + k < ou.length),
      (7 : ℚ)/10 < calculate_unit_similarity O ((ou.getD (i + k) defU).text)
          ((su.getD j defU).text) od sd →
      calculate_unit_similarity O ((ou.getD (i + k) defU).text)
          ((su.getD j defU).text) od sd ≤
        (lookaheadOriginal O od sd ou su i j ml).2) ∧
    (ml = min 3 (min (ou.length - i) (su.length - j)) →
      ∀ m, (lookaheadOriginal O od sd ou su i j ml).1 = some m →
        elseStep O od sd ou su i j sim = (⟨combineOrig ou i m, "", 0⟩, m, j)) := by
  refine ⟨?_, ?_, ?_⟩
  · intro m h
    rcases lookScan_some _ _ _ _ _ h with h1 | ⟨k, _, he, hq, hlt⟩
    · exact absurd h1 (by simp)
    · subst he
      exact ⟨hq, hlt⟩
  · intro k hk hq
    exact lookScan_dominates _ _ _ _ k hk hq
  · intro hml m h
    subst hml
    simp only [elseStep, h]

/-- Witness for C10: with units `["xx", "yy zz"]` against `["yy zz", "ww"]`,
the original-side lookahead records index 1 (an exact match, score 1), so
the step taken is the deletion branch, emitting `("xx", "", 0)` and moving
`i` to 1 with `j` unchanged. -/
theorem C10_witness :
    (lookaheadOriginal OTriv dEmpty dEmpty ouC10 suC10 0 0
      (min 3 (min (ouC10.length - 0) (suC10.length - 0)))).1 = some 1 ∧
    elseStep OTriv dEmpty dEmpty ouC10 suC10 0 0 0 = (⟨"xx", "", 0⟩, 1, 0) := by
  refine ⟨by decide, ?_⟩
  rw [(C10_lookahead_shared_best OTriv dEmpty dEmpty ouC10 suC10 0 0
    (min 3 (min (ouC10.length - 0) (suC10.length - 0))) 0).2.2 rfl 1 (by decide)]
  decide

/-- Helper: `getD` at an in-range index is a member. -/
theorem getD_mem_of_lt {l : List LUnit} {i : Nat} (h : i < l.length) :
    l.getD i defU ∈ l := by
  rw [List.getD_eq_getElem?_getD, List.getElem?_eq_getElem h]
  exact List.getElem_mem h

/-- Helper: self-similarity is 1 for nonempty text, 0 for empty text. -/
theorem calculate_self (O : Oracles) (t : String) (d1 d2 : Doc) :
    calculate_unit_similarity O t t d1 d2 = if t = "" then 0 else 1 := by
  by_cases h : t = ""
  · rw [if_pos h]
    unfold calculate_unit_similarity
    rw [if_pos (Or.inl h)]
  · rw [if_neg h]
    unfold calculate_unit_similarity
    rw [if_neg (by tauto), if_pos rfl]

/-- Helper: similarity against an empty right text is 0. -/
theorem calculate_empty_right (O : Oracles) (t : String) (d1 d2 : Doc) :
    calculate_unit_similarity O t "" d1 d2 = 0 := by
  unfold calculate_unit_similarity
  rw [if_pos (Or.inr rfl)]

/-- Helper: similarity against an empty left text is 0. -/
theorem calculate_empty_left (O : Oracles) (t : String) (d1 d2 : Doc) :
    calculate_unit_similarity O "" t d1 d2 = 0 := by
  unfold calculate_unit_similarity
  rw [if_pos (Or.inl rfl)]

/-- Helper: a lookahead scan with no qualifying candidate returns its
accumulator unchanged. -/
theorem lookScan_no_qual (score : Nat → ℚ) (toIdx : Nat → Nat) :
    ∀ (ks : List Nat) (acc : Option Nat × ℚ),
      (∀ k ∈ ks, ¬((7 : ℚ)/10 < score k)) →
      lookScan score toIdx ks acc = acc := by
  intro ks
  induction ks with
  | nil => intro acc _; rfl
  | cons k ks ih =>
    intro acc hq
    simp only [lookScan]
    rw [if_neg fun hc => hq k (List.mem_cons_self k ks) hc.1]
    exact ih acc fun k2 hk2 => hq k2 (List.mem_cons_of_mem k hk2)

/-- Helper: on identical unit lists, when the current unit text is empty,
both lookaheads fail and the low-similarity step forces the current pair. -/
theorem elseStep_self_empty (O : Oracles) (d : Doc) (us : List LUnit) (i : Nat)
    (hte : (us.getD i defU).text = "") (sim : ℚ) :
    elseStep O d d us us i i sim =
      (⟨(us.getD i defU).text, (us.getD i defU).text, sim⟩, i + 1, i + 1) := by
  have hO : lookaheadOriginal O d d us us i i
      (min 3 (min (us.length - i) (us.length - i))) = (none, 0) := by
    unfold lookaheadOriginal
    apply lookScan_no_qual
    intro k _
    rw [hte, calculate_empty_right]
    norm_num
  have hS : lookaheadSuggested O d d us us i i
      (min 3 (min (us.length - i) (us.length - i))) 0 = (none, 0) := by
    unfold lookaheadSuggested
    apply lookScan_no_qual
    intro k _
    rw [hte, calculate_empty_left]
    norm_num
  simp only [elseStep, hO, hS]

/-- Helper: the merge post-process loop preserves any predicate that is
stable under merging two segments. -/
theorem mergeShortLoop_pres (P : Segment → Prop)
    (hmerge : ∀ a b : Segment, P a → P b →
      P ⟨a.original ++ b.original, a.suggested ++ b.suggested, 0⟩) :
    ∀ (rest : List Segment) (c : Segment), P c → (∀ x ∈ rest, P x) →
      ∀ seg ∈ mergeShortLoop c rest, P seg := by
  intro rest
  induction rest with
  | nil =>
    intro c hc _ seg hseg
    simp only [mergeShortLoop, List.mem_singleton] at hseg
    subst hseg
    exact hc
  | cons x rest ih =>
    intro c hc hrest seg hseg
    simp only [mergeShortLoop] at hseg
    split at hseg
    · exact ih _ (hmerge c x hc (hrest x (List.mem_cons_self x rest)))
        (fun y hy => hrest y (List.mem_cons_of_mem x hy)) seg hseg
    · rcases List.mem_cons.mp hseg with he | hm
      · subst he; exact hc
      · exact ih x (hrest x (List.mem_cons_self x rest))
          (fun y hy => hrest y (List.mem_cons_of_mem x hy)) seg hm

/-- Helper: the merge post-process preserves any predicate stable under
merging. -/
theorem mergeShortSegments_pres (P : Segment → Prop)
    (hmerge : ∀ a b : Segment, P a → P b →
      P ⟨a.original ++ b.original, a.suggested ++ b.suggested, 0⟩)
    (l : List Segment) (hl : ∀ x ∈ l, P x) :
    ∀ seg ∈ mergeShortSegments l, P seg := by
  unfold mergeShortSegments
  split
  · match l with
    | [] => simp
    | c :: rest =>
      exact mergeShortLoop_pres P hmerge rest c (hl c (List.mem_cons_self c rest))
        fun y hy => hl y (List.mem_cons_of_mem c hy)
  · exact hl

/-- Helper: on identical inputs the alignment loop only emits segments with
equal sides and similarity 0 or 1. -/
theorem alignCore_self (O : Oracles) (d : Doc) (us : List LUnit) :
    ∀ (fuel i : Nat), ∀ seg ∈ alignCore O d d us us fuel i i,
      seg.original = seg.suggested ∧ (seg.similarity = 0 ∨ seg.similarity = 1) := by
  intro fuel
  induction fuel with
  | zero => intro i seg h; exact absurd h (List.not_mem_nil seg)
  | succ fuel ih =>
    intro i seg h
    simp only [alignCore] at h
    by_cases hi : i < us.length
    · simp only [if_pos hi] at h
      rw [calculate_self] at h
      by_cases hte : (us.getD i defU).text = ""
      · rw [if_pos hte] at h
        rw [if_neg (show ¬(7 : ℚ)/10 < 0 by norm_num)] at h
        rw [elseStep_self_empty O d us i hte 0] at h
        rcases List.mem_cons.mp h with he | hm
        · subst he; exact ⟨rfl, Or.inl rfl⟩
        · exact ih (i + 1) seg hm
      · rw [if_neg hte] at h
        rw [if_pos (show (7 : ℚ)/10 < 1 by norm_num)] at h
        rcases List.mem_cons.mp h with he | hm
        · subst he; exact ⟨rfl, Or.inr rfl⟩
        · exact ih (i + 1) seg hm
    · rw [if_neg hi] at h
      rw [List.drop_eq_nil_of_le (Nat.le_of_not_lt hi)] at h
      exact absurd h (by simp)

/-- Helper: on identical inputs the fallback segmenter only emits segments
with equal sides and similarity 0 or 1. -/
theorem basic_self (s : String) :
    ∀ seg ∈ basic_segmentation s s,
      seg.original = seg.suggested ∧ (seg.similarity = 0 ∨ seg.similarity = 1) := by
  intro seg h
  unfold basic_segmentation at h
  by_cases h1 : (pySplitOn s ". ").length = 1 ∧ (pySplitOn s ". ").length = 1
  · rw [if_pos h1] at h
    by_cases h2 : (pySplitWS s).length ≤ 3 ∧ (pySplitWS s).length ≤ 3
    · rw [if_pos h2] at h
      simp only [List.mem_singleton] at h
      subst h
      refine ⟨rfl, Or.inr ?_⟩
      simp
    · rw [if_neg h2] at h
      simp only [wordChunkSegments, List.mem_map] at h
      obtain ⟨i, _, he⟩ := h
      subst he
      refine ⟨rfl, Or.inr ?_⟩
      simp
  · rw [if_neg h1] at h
    simp only [List.mem_filterMap] at h
    obtain ⟨i, _, he⟩ := h
    by_cases hc : (if i < (pySplitOn s ". ").length then
        (pySplitOn s ". ").getD i "" ++ ". " else "") = "" ∧
        (if i < (pySplitOn s ". ").length then
        (pySplitOn s ". ").getD i "" ++ ". " else "") = ""
    · rw [if_pos hc] at he
      exact absurd he (by simp)
    · rw [if_neg hc] at he
      have hseg := Option.some.inj he
      subst hseg
      refine ⟨rfl, Or.inr ?_⟩
      simp

/-- Claim C4, amended: for every collaborator and nonempty `s`, each segment
of `segment_texts s s` has equal `original` and `suggested` fields (hence
the two concatenations agree with each other), and each similarity is
either 1.0 or 0.0 — not always 1.0, and the concatenation need not equal
`s`, as the counterexample shows (the short-segment merge resets
similarities to 0 and inter-sentence whitespace is dropped). -/
theorem C4_amended_identity (O : Oracles) (s : String) (hs : s ≠ "") :
    (∀ seg ∈ segment_texts O s s,
      seg.original = seg.suggested ∧ (seg.similarity = 0 ∨ seg.similarity = 1)) ∧
    concatTexts ((segment_texts O s s).map fun g => g.original) =
      concatTexts ((segment_texts O s s).map fun g => g.suggested) := by
  have hmain : ∀ seg ∈ segment_texts O s s,
      seg.original = seg.suggested ∧ (seg.similarity = 0 ∨ seg.similarity = 1) := by
    intro seg h
    unfold segment_texts at h
    rw [if_neg (fun hc => hs hc.1), if_neg hs, if_neg hs] at h
    cases hp : O.parse (pyTake s 5000) with
    | none =>
      simp only [hp] at h
      exact basic_self s seg h
    | some d =>
      simp only [hp] at h
      have halign : ∀ x ∈ align_linguistic_units O (extract_linguistic_units d)
          (extract_linguistic_units d) d d,
          x.original = x.suggested ∧ (x.similarity = 0 ∨ x.similarity = 1) := by
        intro x hx
        unfold align_linguistic_units at hx
        by_cases h0 : extract_linguistic_units d = [] ∧ extract_linguistic_units d = []
        · rw [if_pos h0] at hx
          exact absurd hx (List.not_mem_nil x)
        · rw [if_neg h0] at hx
          have h1 : ¬extract_linguistic_units d = [] := fun hc => h0 ⟨hc, hc⟩
          rw [if_neg h1, if_neg h1] at hx
          exact mergeShortSegments_pres _
            (fun a b ha hb => ⟨by simp only [ha.1, hb.1], Or.inl rfl⟩) _
            (fun y hy => alignCore_self O d (extract_linguistic_units d) _ 0 y hy)
            x hx
      split at h
      · rcases List.mem_append.mp h with ha | hr
        · exact halign seg ha
        · simp only [List.mem_singleton] at hr
          subst hr
          exact ⟨rfl, Or.inl rfl⟩
      · exact halign seg h
  refine ⟨hmain, ?_⟩
  have hcongr : ∀ (l : List Segment), (∀ x ∈ l, x.original = x.suggested) →
      concatTexts (l.map fun g => g.original) =
        concatTexts (l.map fun g => g.suggested) := by
    intro l
    induction l with
    | nil => intro _; rfl
    | cons a l ih =>
      intro hl
      simp only [List.map_cons, concatTexts]
      rw [hl a (List.mem_cons_self a l),
        ih fun x hx => hl x (List.mem_cons_of_mem a hx)]
  exact hcongr _ fun x hx => (hmain x hx).1

/-- Witness for C4's amended claim at `s = "ab"` with the failing parser. -/
theorem C4_witness :
    ("ab" : String) ≠ "" ∧
    (∀ seg ∈ segment_texts OTriv "ab" "ab",
      seg.original = seg.suggested ∧ (seg.similarity = 0 ∨ seg.similarity = 1)) ∧
    concatTexts ((segment_texts OTriv "ab" "ab").map fun g => g.original) =
      concatTexts ((segment_texts OTriv "ab" "ab").map fun g => g.suggested) :=
  ⟨by decide, (C4_amended_identity OTriv "ab" (by decide)).1,
   (C4_amended_identity OTriv "ab" (by decide)).2⟩

/-- Helper: a string concatenation is empty iff both parts are. -/
theorem append_eq_empty_iff (s t : String) : s ++ t = "" ↔ s = "" ∧ t = "" := by
  constructor
  · intro h
    have hd : s.data ++ t.data = [] := by
      rw [← String.data_append, h]
    rcases List.append_eq_nil.mp hd with ⟨hs, ht⟩
    have hempty : ("" : String).data = [] := rfl
    exact ⟨String.ext (hs.trans hempty.symm), String.ext (ht.trans hempty.symm)⟩
  · rintro ⟨rfl, rfl⟩
    rfl

/-- Helper: appending to a nonempty string keeps it nonempty. -/
theorem append_ne_left {s : String} (t : String) (h : s ≠ "") : s ++ t ≠ "" :=
  fun he => h ((append_eq_empty_iff s t).mp he).1

/-- Helper: a string built from a nonempty character list is nonempty. -/
theorem mk_ne_empty {l : List Char} (h : l ≠ []) : (⟨l⟩ : String) ≠ "" := by
  intro he
  apply h
  have hd : (⟨l⟩ : String).data = ("" : String).data := by rw [he]
  exact hd

/-- Helper: every token produced by the whitespace tokenizer is nonempty. -/
theorem wsTokens_mem_ne : ∀ (l acc : List Char), ∀ w ∈ wsTokens l acc, w ≠ "" := by
  intro l
  induction l with
  | nil =>
    intro acc w hw
    simp only [wsTokens] at hw
    split at hw
    · exact absurd hw (List.not_mem_nil w)
    · rename_i hacc
      simp only [List.mem_singleton] at hw
      subst hw
      apply mk_ne_empty
      simpa using hacc
  | cons c cs ih =>
    intro acc w hw
    simp only [wsTokens] at hw
    by_cases hws : c.isWhitespace = true
    · rw [if_pos hws] at hw
      by_cases hacc : acc = []
      · rw [if_pos hacc] at hw
        exact ih [] w hw
      · rw [if_neg hacc] at hw
        rcases List.mem_cons.mp hw with he | hm
        · subst he
          apply mk_ne_empty
          simpa using hacc
        · exact ih [] w hm
    · rw [if_neg hws] at hw
      exact ih (c :: acc) w hw

/-- Helper: every word of a Python whitespace split is nonempty. -/
theorem pySplitWS_mem_ne (s : String) : ∀ w ∈ pySplitWS s, w ≠ "" :=
  wsTokens_mem_ne s.data []

/-- Helper: the join fold keeps a nonempty accumulator nonempty. -/
theorem foldl_append_ne (sep : String) :
    ∀ (l : List String) (acc : String), acc ≠ "" →
      l.foldl (fun acc x => acc ++ sep ++ x) acc ≠ "" := by
  intro l
  induction l with
  | nil => intro acc h; exact h
  | cons x xs ih =>
    intro acc h
    simp only [List.foldl_cons]
    exact ih _ (append_ne_left x (append_ne_left sep h))

/-- Helper: joining a nonempty list of nonempty words is nonempty. -/
theorem pyJoin_ne (sep : String) (l : List String) (hl : l ≠ [])
    (hx : ∀ x ∈ l, x ≠ "") : pyJoin sep l ≠ "" := by
  match l with
  | [] => exact absurd rfl hl
  | a :: rest =>
    show rest.foldl (fun acc x => acc ++ sep ++ x) a ≠ ""
    exact foldl_append_ne sep rest a (hx a (List.mem_cons_self a rest))

/-- Helper: every unit emitted by the chunk walk has nonempty text, given
that the chunk candidates have nonempty text. -/
theorem chunkWalk_ne (d : Doc) (s : Sent) :
    ∀ (cs : List Chunk) (pos : Nat), (∀ c ∈ cs, c.text ≠ "") →
      ∀ u ∈ chunkWalk d s pos cs, u.text ≠ "" := by
  intro cs
  induction cs with
  | nil =>
    intro pos _ u hu
    simp only [chunkWalk] at hu
    split at hu
    · split at hu
      · rename_i hstrip
        simp only [List.mem_singleton] at hu
        subst hu
        exact ne_empty_of_strip_ne hstrip
      · exact absurd hu (List.not_mem_nil u)
    · exact absurd hu (List.not_mem_nil u)
  | cons c cs ih =>
    intro pos hc u hu
    simp only [chunkWalk] at hu
    rcases List.mem_append.mp hu with hb | hrest
    · split at hb
      · split at hb
        · rename_i hstrip
          simp only [List.mem_singleton] at hb
          subst hb
          exact ne_empty_of_strip_ne hstrip
        · exact absurd hb (List.not_mem_nil u)
      · exact absurd hb (List.not_mem_nil u)
    · rcases List.mem_cons.mp hrest with he | hm
      · subst he
        exact hc c (List.mem_cons_self c cs)
      · exact ih _ (fun x hx => hc x (List.mem_cons_of_mem c hx)) u hm

/-- Helper: every unit extracted from a well-formed document has nonempty
text. -/
theorem extract_units_ne (d : Doc) (hwf : d.WF) :
    ∀ u ∈ extract_linguistic_units d, u.text ≠ "" := by
  intro u hu
  unfold extract_linguistic_units at hu
  by_cases hn : d.nTokens = 0
  · rw [if_pos hn] at hu
    exact absurd hu (List.not_mem_nil u)
  · rw [if_neg hn] at hu
    simp only [List.mem_flatten, List.mem_map] at hu
    obtain ⟨l, ⟨sen, hsen, rfl⟩, hul⟩ := hu
    have hswf := hwf.2 sen hsen
    unfold processSent at hul
    by_cases h5 : (pySplitWS sen.text).length < 5
    · rw [if_pos h5] at hul
      simp only [List.mem_singleton] at hul
      subst hul
      exact hswf.2.2.2.1
    · rw [if_neg h5] at hul
      by_cases hcs : sortChunks sen.chunks = []
      · rw [if_pos hcs] at hul
        simp only [List.mem_singleton] at hul
        subst hul
        exact hswf.2.2.2.1
      · rw [if_neg hcs] at hul
        refine chunkWalk_ne d sen (sortChunks sen.chunks) sen.start_char ?_ u hul
        intro c hc
        exact (hswf.2.2.2.2 c (mem_sortChunks.mp hc)).2.2.2

/-- Helper: the concatenation of the texts of a nonempty unit slice is
nonempty. -/
theorem concat_units_ne (l : List LUnit) (i m : Nat)
    (hl : ∀ u ∈ l, u.text ≠ "") (hi : i < l.length) (him : i < m) :
    concatTexts (((l.drop i).take (m - i)).map fun u => u.text) ≠ "" := by
  rw [List.drop_eq_getElem_cons hi]
  obtain ⟨k, hk⟩ : ∃ k, m - i = k + 1 := ⟨m - i - 1, by omega⟩
  rw [hk, List.take_succ_cons]
  simp only [List.map_cons, concatTexts]
  exact append_ne_left _ (hl _ (List.getElem_mem hi))

/-- Helper: dropping fewer characters than the length leaves a nonempty
string. -/
theorem pyDrop_ne {s : String} {n : Nat} (h : n < s.length) : pyDrop s n ≠ "" := by
  apply mk_ne_empty
  apply List.ne_nil_of_length_pos
  rw [List.length_drop]
  have hsd : s.length = s.data.length := rfl
  omega

/-- Helper: the alignment loop never emits a double-empty segment when all
unit texts are nonempty. -/
theorem alignCore_ne (O : Oracles) (od sd : Doc) (ou su : List LUnit)
    (hou : ∀ u ∈ ou, u.text ≠ "") (hsu : ∀ u ∈ su, u.text ≠ "") :
    ∀ (fuel i j : Nat), ∀ seg ∈ alignCore O od sd ou su fuel i j,
      seg.original ≠ "" ∨ seg.suggested ≠ "" := by
  intro fuel
  induction fuel with
  | zero => intro i j seg h; exact absurd h (List.not_mem_nil seg)
  | succ fuel ih =>
    intro i j seg h
    simp only [alignCore] at h
    by_cases hi : i < ou.length
    · rw [if_pos hi] at h
      by_cases hj : j < su.length
      · rw [if_pos hj] at h
        have hti : (ou.getD i defU).text ≠ "" := hou _ (getD_mem_of_lt hi)
        by_cases hsim : (7 : ℚ)/10 < calculate_unit_similarity O
            ((ou.getD i defU).text) ((su.getD j defU).text) od sd
        · rw [if_pos hsim] at h
          rcases List.mem_cons.mp h with he | hm
          · subst he
            exact Or.inl hti
          · exact ih _ _ seg hm
        · rw [if_neg hsim] at h
          rcases List.mem_cons.mp h with he | hm
          · subst he
            simp only [elseStep]
            cases hbo : (lookaheadOriginal O od sd ou su i j
                (min 3 (min (ou.length - i) (su.length - j)))).1 with
            | some m =>
              simp only [hbo]
              obtain ⟨him, _⟩ :=
                lookaheadOriginal_some_range O od sd ou su i j _ m hbo
              refine Or.inl ?_
              unfold combineOrig
              exact concat_units_ne ou i m hou hi him
            | none =>
              simp only [hbo]
              cases hbs : (lookaheadSuggested O od sd ou su i j
                  (min 3 (min (ou.length - i) (su.length - j)))
                  (lookaheadOriginal O od sd ou su i j
                    (min 3 (min (ou.length - i) (su.length - j)))).2).1 with
              | some m =>
                simp only [hbs]
                obtain ⟨hjm, _⟩ :=
                  lookaheadSuggested_some_range O od sd ou su i j _ m _ hbs
                refine Or.inr ?_
                unfold combineSugg
                exact concat_units_ne su j m hsu hj hjm
              | none =>
                simp only [hbs]
                exact Or.inl hti
          · exact ih _ _ seg hm
      · rw [if_neg hj] at h
        simp only [List.mem_map] at h
        obtain ⟨u, hu, rfl⟩ := h
        exact Or.inl (hou u (List.mem_of_mem_drop hu))
    · rw [if_neg hi] at h
      simp only [List.mem_map] at h
      obtain ⟨u, hu, rfl⟩ := h
      exact Or.inr (hsu u (List.mem_of_mem_drop hu))

/-- Helper: the aligner never emits a double-empty segment when all unit
texts are nonempty. -/
theorem align_ne (O : Oracles) (od sd : Doc) (ou su : List LUnit)
    (hou : ∀ u ∈ ou, u.text ≠ "") (hsu : ∀ u ∈ su, u.text ≠ "") :
    ∀ seg ∈ align_linguistic_units O ou su od sd,
      seg.original ≠ "" ∨ seg.suggested ≠ "" := by
  intro seg h
  unfold align_linguistic_units at h
  by_cases h0 : ou = [] ∧ su = []
  · rw [if_pos h0] at h
    exact absurd h (List.not_mem_nil seg)
  · rw [if_neg h0] at h
    by_cases h1 : ou = []
    · rw [if_pos h1] at h
      simp only [List.mem_map] at h
      obtain ⟨u, hu, rfl⟩ := h
      exact Or.inr (hsu u hu)
    · rw [if_neg h1] at h
      by_cases h2 : su = []
      · rw [if_pos h2] at h
        simp only [List.mem_map] at h
        obtain ⟨u, hu, rfl⟩ := h
        exact Or.inl (hou u hu)
      · rw [if_neg h2] at h
        refine mergeShortSegments_pres _ ?_ _
          (fun x hx => alignCore_ne O od sd ou su hou hsu _ _ _ x hx) seg h
        intro a b ha _
        rcases ha with ha | ha
        · exact Or.inl (append_ne_left _ ha)
        · exact Or.inr (append_ne_left _ ha)

/-- Helper: the fallback segmenter never emits a double-empty segment when
both inputs are nonempty. -/
theorem basic_ne (o s : String) (ho : o ≠ "") (hs : s ≠ "") :
    ∀ seg ∈ basic_segmentation o s,
      seg.original ≠ "" ∨ seg.suggested ≠ "" := by
  intro seg h
  unfold basic_segmentation at h
  by_cases h1 : (pySplitOn o ". ").length = 1 ∧ (pySplitOn s ". ").length = 1
  · rw [if_pos h1] at h
    by_cases h2 : (pySplitWS o).length ≤ 3 ∧ (pySplitWS s).length ≤ 3
    · rw [if_pos h2] at h
      simp only [List.mem_singleton] at h
      subst h
      exact Or.inl ho
    · rw [if_neg h2] at h
      simp only [wordChunkSegments, List.mem_map] at h
      obtain ⟨i, hi, rfl⟩ := h
      simp only [List.mem_map, List.mem_range] at hi
      obtain ⟨n, hn, rfl⟩ := hi
      have hdm := Nat.div_mul_le_self
        (max (pySplitWS o).length (pySplitWS s).length + 2) 3
      have h3 : 3 * n < max (pySplitWS o).length (pySplitWS s).length := by
        omega
      by_cases hio : 3 * n < (pySplitWS o).length
      · refine Or.inl ?_
        rw [if_pos hio]
        apply pyJoin_ne
        · apply List.ne_nil_of_length_pos
          rw [List.length_take, List.length_drop]
          omega
        · intro x hx
          exact pySplitWS_mem_ne o x
            (List.mem_of_mem_drop (List.mem_of_mem_take hx))
      · refine Or.inr ?_
        have his : 3 * n < (pySplitWS s).length := by omega
        rw [if_pos his]
        apply pyJoin_ne
        · apply List.ne_nil_of_length_pos
          rw [List.length_take, List.length_drop]
          omega
        · intro x hx
          exact pySplitWS_mem_ne s x
            (List.mem_of_mem_drop (List.mem_of_mem_take hx))
  · rw [if_neg h1] at h
    simp only [List.mem_filterMap] at h
    obtain ⟨i, _, he⟩ := h
    by_cases hc : (if i < (pySplitOn o ". ").length then
        (pySplitOn o ". ").getD i "" ++ ". " else "") = "" ∧
        (if i < (pySplitOn s ". ").length then
        (pySplitOn s ". ").getD i "" ++ ". " else "") = ""
    · rw [if_pos hc] at he
      exact absurd he (by simp)
    · rw [if_neg hc] at he
      have hseg := Option.some.inj he
      subst hseg
      exact not_and_or.mp hc

/-- Claim C9: for every collaborator whose parses are structurally
well-formed (as spaCy's are) and all inputs, no segment returned by
`segment_texts` — through the aligner, the fallback segmenter, or the
truncation remainder — has both `original` and `suggested` empty. -/
theorem C9_no_double_empty (O : Oracles)
    (hO : ∀ t d, O.parse t = some d → d.WF) (o s : String) :
    ∀ seg ∈ segment_texts O o s, seg.original ≠ "" ∨ seg.suggested ≠ "" := by
  intro seg h
  unfold segment_texts at h
  by_cases h0 : o = "" ∧ s = ""
  · rw [if_pos h0] at h
    exact absurd h (List.not_mem_nil seg)
  · rw [if_neg h0] at h
    by_cases h1 : o = ""
    · rw [if_pos h1] at h
      simp only [List.mem_singleton] at h
      subst h
      exact Or.inr fun hse => h0 ⟨h1, hse⟩
    · rw [if_neg h1] at h
      by_cases h2 : s = ""
      · rw [if_pos h2] at h
        simp only [List.mem_singleton] at h
        subst h
        exact Or.inl h1
      · rw [if_neg h2] at h
        cases hp1 : O.parse (pyTake o 5000) with
        | none =>
          simp only [hp1] at h
          exact basic_ne o s h1 h2 seg h
        | some d1 =>
          simp only [hp1] at h
          cases hp2 : O.parse (pyTake s 5000) with
          | none =>
            simp only [hp2] at h
            exact basic_ne o s h1 h2 seg h
          | some d2 =>
            simp only [hp2] at h
            have hu1 := extract_units_ne d1 (hO _ _ hp1)
            have hu2 := extract_units_ne d2 (hO _ _ hp2)
            by_cases hlen : 5000 < o.length ∨ 5000 < s.length
            · rw [if_pos hlen] at h
              rcases List.mem_append.mp h with ha | hr
              · exact align_ne O d1 d2 _ _ hu1 hu2 seg ha
              · simp only [List.mem_singleton] at hr
                subst hr
                by_cases hlo : 5000 < o.length
                · refine Or.inl ?_
                  rw [if_pos hlo]
                  exact pyDrop_ne hlo
                · refine Or.inr ?_
                  have hls : 5000 < s.length := by tauto
                  rw [if_pos hls]
                  exact pyDrop_ne hls
            · rw [if_neg hlen] at h
              exact align_ne O d1 d2 _ _ hu1 hu2 seg h

/-- Witness for C9: with the collaborator that parses `sC4` into the
well-formed `docC4`, the no-double-empty invariant holds concretely. -/
theorem C9_witness :
    (∀ t d, exOC4.parse t = some d → d.WF) ∧
    (∀ seg ∈ segment_texts exOC4 sC4 sC4,
      seg.original ≠ "" ∨ seg.suggested ≠ "") := by
  have hO : ∀ t d, exOC4.parse t = some d → d.WF := by
    intro t d h
    simp only [exOC4] at h
    split at h
    · have hd := Option.some.inj h
      rw [← hd]
      decide
    · exact absurd h (by simp)
  exact ⟨hO, C9_no_double_empty exOC4 hO sC4 sC4⟩

/-- Witness for C1 at a concrete collaborator. -/
theorem C1_witness :
    segment_texts OTriv "" "New text" = [⟨"", "New text", 0⟩] ∧
    segment_texts OTriv "" "" = [] ∧
    segment_texts OTriv "" "x" = [⟨"", "x", 0⟩] ∧
    segment_texts OTriv "x" "" = [⟨"x", "", 0⟩] :=
  C1_segment_texts_totality OTriv

end Ripple
